import Mathlib

/-!
Verification of the log ingestion and clustering pipeline of the
HA-Log-Debugger-AI repository.

The Python sources under `src/` are shallowly embedded as executable Lean
definitions.  Strings are modelled by Lean `String` (Python `str` indexing
and slicing is by code point, matched here by `List Char` operations on
`String.data`); the `hashlib.md5(...).hexdigest()` digest is modelled by an
abstract function parameter `md5 : String → String`, so every statement
about fingerprints is made at the level of the digest input (the `content`
string the code feeds to the digest), which determines the fingerprint for
the deterministic digest the code uses; Python's builtin `hash` on strings
(process-seeded SipHash) is likewise an abstract parameter
`pyhash : String → Int`.  Character classes of the `re` patterns are
modelled over ASCII.
-/

set_option maxRecDepth 8192

namespace HALog

/-- Python `\s` class, `[ \t\n\r\f\v]` (ASCII fragment). -/
def isSpaceChar (c : Char) : Bool :=
  c = ' ' || c = '\t' || c = '\n' || c = '\r' || c = '\x0b' || c = '\x0c'

/-- Python `\w` class, `[A-Za-z0-9_]` (ASCII fragment). -/
def isWordChar (c : Char) : Bool :=
  c.isAlphanum || c = '_'

/-- Python `str.upper()` (ASCII fragment): uppercase character by
character. -/
def pyUpper (s : String) : String :=
  String.mk (s.data.map Char.toUpper)

/-- Python `str.strip()` on a character list: drop whitespace at both ends. -/
def stripChars (l : List Char) : List Char :=
  ((l.dropWhile isSpaceChar).reverse.dropWhile isSpaceChar).reverse

/-- Python `str.strip()` on a string. -/
def pyStrip (s : String) : String :=
  String.mk (stripChars s.data)

/-- Python rendering of an `Optional[str]` inside an f-string:
`None` prints as the four characters `None`, a string prints as itself. -/
def pyStrOpt : Option String → String
  | none => "None"
  | some s => s

/-- `LogLevel` enum from `src/models.py`. -/
inductive LogLevel where
  | debug
  | info
  | warning
  | error
  | critical
deriving DecidableEq, Repr

/-- The `.value` of each `LogLevel` member (`src/models.py`). -/
def LogLevel.value : LogLevel → String
  | .debug => "DEBUG"
  | .info => "INFO"
  | .warning => "WARNING"
  | .error => "ERROR"
  | .critical => "CRITICAL"

/-- `LogLevel(s)` member lookup: `some` on the five member values,
`none` (Python `ValueError`) otherwise. -/
def LogLevel.ofValue (s : String) : Option LogLevel :=
  if s = "DEBUG" then some .debug
  else if s = "INFO" then some .info
  else if s = "WARNING" then some .warning
  else if s = "ERROR" then some .error
  else if s = "CRITICAL" then some .critical
  else none

/-- `datetime` value as produced by `datetime.strptime` in
`LogMonitor._parse_timestamp` (`src/log_monitor.py`). -/
structure Timestamp where
  year : Nat
  month : Nat
  day : Nat
  hour : Nat
  minute : Nat
  second : Nat
  microsecond : Nat
deriving DecidableEq, Repr

/-- `LogEntry` model from `src/models.py`. -/
structure LogEntry where
  timestamp : Timestamp
  level : LogLevel
  component : Option String
  message : String
  raw_line : String
deriving DecidableEq, Repr

/-! ## Deduplication fingerprint (`LogMonitor.generate_log_hash`) -/

/-- The string `f"{log_entry.level.value}:{log_entry.component}:{log_entry.message}"`
that `LogMonitor.generate_log_hash` (`src/log_monitor.py` lines 169-172)
feeds to `hashlib.md5`: the level value, the Python rendering of the
optional component, and the full, untruncated message, colon-separated. -/
def generate_log_hash_content (e : LogEntry) : String :=
  e.level.value ++ (":" ++ (pyStrOpt e.component ++ (":" ++ e.message)))

/-- `LogMonitor.generate_log_hash`: the md5 hexdigest of
`generate_log_hash_content`, with the digest kept abstract. -/
def generate_log_hash (md5 : String → String) (e : LogEntry) : String :=
  md5 (generate_log_hash_content e)

/-- Python `message[:n]` slicing by code points. -/
def pySlice (n : Nat) (s : String) : String :=
  String.mk (s.data.take n)

/-- The fingerprint digest input as the specification words it
(spec §4.3): level, then the component rendered as the empty string when
absent, then the message truncated to its first 200 characters,
concatenated.  Stated only for comparison against
`generate_log_hash_content`, which is the code's digest input. -/
def specFingerprintContent (e : LogEntry) : String :=
  e.level.value ++ ((e.component.getD "") ++ pySlice 200 e.message)

/-- First character of each level value; the five values have pairwise
distinct first characters, which makes the level recoverable from the
digest input. -/
def levelHeadChar : LogLevel → Char
  | .debug => 'D'
  | .info => 'I'
  | .warning => 'W'
  | .error => 'E'
  | .critical => 'C'

theorem content_data (e : LogEntry) :
    (generate_log_hash_content e).data =
      e.level.value.data ++ ':' :: ((pyStrOpt e.component).data ++ ':' :: e.message.data) := by
  obtain ⟨t, lvl, c, m, r⟩ := e
  cases lvl <;> rfl

theorem content_head (e : LogEntry) :
    (generate_log_hash_content e).data.head? = some (levelHeadChar e.level) := by
  obtain ⟨t, lvl, c, m, r⟩ := e
  cases lvl <;> rfl

theorem levelHeadChar_inj {l1 l2 : LogLevel} (h : l1 ≠ l2) :
    levelHeadChar l1 ≠ levelHeadChar l2 := by
  cases l1 <;> cases l2 <;> simp_all [levelHeadChar]

/-- Entries that differ in level have distinct digest inputs. -/
theorem content_ne_of_level_ne {e1 e2 : LogEntry} (h : e1.level ≠ e2.level) :
    generate_log_hash_content e1 ≠ generate_log_hash_content e2 := by
  intro heq
  have h1 := content_head e1
  have h2 := content_head e2
  rw [heq] at h1
  rw [h1] at h2
  exact levelHeadChar_inj h (Option.some.inj h2)

/-- Sample timestamp used for concrete entries. -/
def ts0 : Timestamp := ⟨2024, 8, 20, 12, 0, 0, 0⟩

/-- Message of 200 `A` characters followed by `X`. -/
def longMsgX : String := String.mk (List.replicate 200 'A' ++ ['X'])

/-- Message of 200 `A` characters followed by `Y`. -/
def longMsgY : String := String.mk (List.replicate 200 'A' ++ ['Y'])

def entryLongX : LogEntry := ⟨ts0, .error, some "test.component", longMsgX, "rawX"⟩

def entryLongY : LogEntry := ⟨ts0, .error, some "test.component", longMsgY, "rawY"⟩

/-- **C1 counterexample.**  Two entries of equal level and component whose
messages agree on their first 200 characters and differ at character 201
have *different* md5 inputs in `generate_log_hash` — the code digests the
full message, so for the (deterministic, collision-resistant) md5 digest
their fingerprints differ, contradicting the claimed equality.  The last
conjunct shows the code's digest input also differs from the
spec-worded recipe (empty component rendering plus 200-character
truncation) on the very same entry. -/
theorem claimC1_counterexample :
    pySlice 200 entryLongX.message = pySlice 200 entryLongY.message ∧
    entryLongX.level = entryLongY.level ∧
    entryLongX.component = entryLongY.component ∧
    entryLongX.message ≠ entryLongY.message ∧
    generate_log_hash_content entryLongX ≠ generate_log_hash_content entryLongY ∧
    generate_log_hash_content entryLongX ≠ specFingerprintContent entryLongX := by
  refine ⟨by decide, rfl, rfl, by decide, by decide, by decide⟩

/-- **C1 (amended).**  The fingerprint is the digest of
`level.value : str(component) : message` with the *full* message (no
200-character truncation) and the absent component rendered as `None`;
consequently two entries of equal level and component with different
messages — in particular ones agreeing on the first 200 characters but
differing afterwards — have *different* digest inputs, hence different
fingerprints under the code's deterministic digest. -/
theorem claimC1_amended_fingerprint_full_message :
    (∀ (md5 : String → String) (e : LogEntry),
      generate_log_hash md5 e =
        md5 (e.level.value ++ (":" ++ (pyStrOpt e.component ++ (":" ++ e.message))))) ∧
    (∀ e1 e2 : LogEntry, e1.level = e2.level → e1.component = e2.component →
      e1.message ≠ e2.message →
      generate_log_hash_content e1 ≠ generate_log_hash_content e2) := by
  refine ⟨fun md5 e => rfl, fun e1 e2 hl hc hm heq => ?_⟩
  have h2 := congrArg String.data heq
  rw [content_data, content_data, hl, hc] at h2
  have h3 := List.append_cancel_left h2
  injection h3 with _ h4
  have h5 := List.append_cancel_left h4
  injection h5 with _ h6
  exact hm (String.ext h6)

def entryMsgA : LogEntry := ⟨ts0, .error, some "test.component", "message a", "raw a"⟩

def entryMsgB : LogEntry := ⟨ts0, .error, some "test.component", "message b", "raw b"⟩

/-- Witness for `claimC1_amended_fingerprint_full_message` at concrete
entries. -/
theorem claimC1_amended_witness :
    generate_log_hash id entryMsgA = id (generate_log_hash_content entryMsgA) ∧
    generate_log_hash_content entryMsgA ≠ generate_log_hash_content entryMsgB :=
  ⟨claimC1_amended_fingerprint_full_message.1 id entryMsgA,
   claimC1_amended_fingerprint_full_message.2 entryMsgA entryMsgB rfl rfl (by decide)⟩

/-! ## C5: determinism and collision-freeness of the fingerprint -/

def entryCompNone : LogEntry := ⟨ts0, .error, none, "Connection failed", "raw n"⟩

def entryCompLiteralNone : LogEntry :=
  ⟨ts0, .error, some "None", "Connection failed", "raw n"⟩

/-- **C5 counterexample.**  Two entries that differ in component — one has
no component, the other has the literal component string `None` — produce
*equal* md5 inputs, hence equal fingerprints under the deterministic
digest, refuting collision-freeness across component. -/
theorem claimC5_counterexample :
    entryCompNone.component ≠ entryCompLiteralNone.component ∧
    generate_log_hash_content entryCompNone = generate_log_hash_content entryCompLiteralNone :=
  ⟨by decide, rfl⟩

/-- **C5 (amended).**  The fingerprint is deterministic (equal entries give
equal digests), and it is collision-free across *level*: entries differing
in level have distinct digest inputs, hence distinct fingerprints under
the deterministic digest.  Collision-freeness across component fails (see
the counterexample). -/
theorem claimC5_amended_deterministic_level_collision_free :
    (∀ (md5 : String → String) (e1 e2 : LogEntry), e1 = e2 →
      generate_log_hash md5 e1 = generate_log_hash md5 e2) ∧
    (∀ e1 e2 : LogEntry, e1.level ≠ e2.level →
      generate_log_hash_content e1 ≠ generate_log_hash_content e2) :=
  ⟨fun _ _ _ h => by rw [h], fun _ _ h => content_ne_of_level_ne h⟩

def entryLevelW : LogEntry := ⟨ts0, .warning, some "test.component", "message a", "raw a"⟩

/-- Witness for `claimC5_amended_deterministic_level_collision_free` at
concrete entries. -/
theorem claimC5_amended_witness :
    generate_log_hash id entryMsgA = generate_log_hash id entryMsgA ∧
    generate_log_hash_content entryMsgA ≠ generate_log_hash_content entryLevelW :=
  ⟨claimC5_amended_deterministic_level_collision_free.1 id entryMsgA entryMsgA rfl,
   claimC5_amended_deterministic_level_collision_free.2 entryMsgA entryLevelW (by decide)⟩

/-- **C10 (confirmed).**  An entry with no component and the
otherwise-identical entry whose component is the literal string `None`
have equal fingerprints for every digest: the f-string renders the missing
component as the four characters `None`, so deduplication cannot tell the
two apart. -/
theorem claimC10_none_component_ambiguity :
    ∀ (md5 : String → String) (t : Timestamp) (lvl : LogLevel) (msg raw : String),
      generate_log_hash md5 ⟨t, lvl, none, msg, raw⟩ =
        generate_log_hash md5 ⟨t, lvl, some "None", msg, raw⟩ :=
  fun _ _ _ _ _ => rfl

/-! ## Tailer (`LogMonitor._process_new_lines`)

`_process_new_lines` (`src/log_monitor.py` lines 86-112) stats the file,
resets `last_position` to 0 when the size shrank, returns when nothing is
new, otherwise seeks to `last_position`, calls `f.readlines()`, sets
`last_position = f.tell()` (end of file), and feeds every stripped
non-empty line to the parser/callback.  The file content is modelled as a
string (ASCII, so byte offsets coincide with character offsets), a cycle
as a pure function from content and previous offset to the emitted lines
and the new offset.  `f.readlines()` splits the remainder on line
terminators and returns the trailing bytes after the last terminator as a
final chunk without a terminator; since every chunk is then stripped and
dropped when empty, terminator-splitting models it exactly. -/

/-- Split a character list at `\n` terminators; the final chunk is the
(possibly empty) remainder after the last terminator. -/
def splitNl : List Char → List (List Char)
  | [] => [[]]
  | c :: cs =>
    if c = '\n' then [] :: splitNl cs
    else
      match splitNl cs with
      | [] => [[c]]
      | l :: ls => (c :: l) :: ls

/-- The lines a cycle hands to the parser: each chunk read, stripped, with
empty results dropped (the `line.strip()` / `if line:` loop of
`_process_new_lines`). -/
def emittedLines (data : List Char) : List (List Char) :=
  ((splitNl data).map stripChars).filter (fun l => !l.isEmpty)

/-- Offset the cycle actually reads from: `last_position`, reset to 0 when
`current_size < last_position` (truncation/rotation). -/
def effectiveStart (size lastPos : Nat) : Nat :=
  if size < lastPos then 0 else lastPos

/-- One `_process_new_lines` cycle: returns the stripped non-empty lines
fed to the parser and the updated `last_position`. -/
def process_new_lines (content : String) (lastPos : Nat) : List String × Nat :=
  let size := content.data.length
  let start := effectiveStart size lastPos
  if size = start then ([], start)
  else ((emittedLines (content.data.drop start)).map String.mk, size)

theorem splitNl_append_nl {a : List Char} (ha : '\n' ∉ a) (rest : List Char) :
    splitNl (a ++ '\n' :: rest) = a :: splitNl rest := by
  induction a with
  | nil => simp [splitNl]
  | cons c cs ih =>
    have hc : c ≠ '\n' := fun h => ha (h ▸ List.mem_cons_self c cs)
    have ih2 := ih (fun h => ha (List.mem_cons_of_mem c h))
    simp only [List.cons_append, splitNl, if_neg hc, List.append_eq, ih2]

theorem splitNl_no_nl {a : List Char} (ha : '\n' ∉ a) : splitNl a = [a] := by
  induction a with
  | nil => rfl
  | cons c cs ih =>
    have hc : c ≠ '\n' := fun h => ha (h ▸ List.mem_cons_self c cs)
    have ih2 := ih (fun h => ha (List.mem_cons_of_mem c h))
    simp only [splitNl, if_neg hc, ih2]

/-- A cycle starting at offset 0 on a non-empty file reads the whole
content and moves the offset to its length. -/
theorem process_from_zero (d : List Char) (hd : d ≠ []) :
    process_new_lines (String.mk d) 0 = ((emittedLines d).map String.mk, d.length) := by
  rw [process_new_lines]
  simp only [effectiveStart, ite_self]
  rw [if_neg (by simpa using hd : ¬(String.mk d).data.length = 0)]
  simp only [List.drop_zero]

/-- A cycle that starts exactly at the old end of file and finds one
appended newline reads just that newline and emits nothing. -/
theorem process_append_nl (d : List Char) :
    (process_new_lines (String.mk (d ++ ['\n'])) d.length).1 = [] := by
  rw [process_new_lines]
  have h1 : (String.mk (d ++ ['\n'])).data.length = d.length + 1 := by simp
  rw [h1]
  rw [show effectiveStart (d.length + 1) d.length = d.length from
        if_neg (by omega)]
  rw [if_neg (by omega : ¬d.length + 1 = d.length)]
  have hdrop : (String.mk (d ++ ['\n'])).data.drop d.length = ['\n'] := List.drop_left d ['\n']
  rw [hdrop]
  rfl

def tailChunkA : List Char := List.replicate 54 'a'

def tailChunkB : List Char := List.replicate 54 'b'

def tailChunkC : List Char := List.replicate 10 'c'

/-- 120-byte file content: two newline-terminated 54-byte lines plus 10
unterminated trailing bytes. -/
def tailContent1 : String := String.mk (tailChunkA ++ '\n' :: tailChunkB ++ '\n' :: tailChunkC)

/-- The same content after the trailing bytes are completed with a
newline. -/
def tailContent2 : String :=
  String.mk ((tailChunkA ++ '\n' :: tailChunkB ++ '\n' :: tailChunkC) ++ ['\n'])

/-- **C2 counterexample.**  On the 120-byte scenario content the cycle
emits **3** lines — `readlines` returns the 10 unterminated trailing bytes
as a final chunk and the code emits it — and advances the offset to 120;
the next cycle, after the completing newline, reads only that newline and
emits **0** lines.  The claimed counts (exactly 2, then exactly 1) are
refuted. -/
theorem claimC2_counterexample :
    tailContent1.data.length = 120 ∧
    (process_new_lines tailContent1 0).1.length = 3 ∧
    (process_new_lines tailContent1 0).2 = 120 ∧
    (process_new_lines tailContent2 120).1.length = 0 ∧
    ¬((process_new_lines tailContent1 0).1.length = 2 ∧
      (process_new_lines tailContent2 120).1.length = 1) := by
  decide

/-- **C2 (amended).**  A cycle emits *every* chunk `readlines` returns,
including an unterminated trailing chunk, and advances the offset to end
of file: on content made of two newline-terminated lines plus unterminated
trailing bytes the cycle emits all three (stripped) chunks, and the next
cycle — after the trailing bytes are completed with a newline — reads only
the completing terminator and emits nothing: the incomplete line is
emitted prematurely rather than retained. -/
theorem claimC2_amended_partial_line_emitted :
    ∀ a b c : List Char, '\n' ∉ a → '\n' ∉ b → '\n' ∉ c →
      stripChars a ≠ [] → stripChars b ≠ [] → stripChars c ≠ [] →
      (process_new_lines (String.mk (a ++ ('\n' :: (b ++ ('\n' :: c))))) 0).1 =
          [String.mk (stripChars a), String.mk (stripChars b), String.mk (stripChars c)] ∧
      (process_new_lines (String.mk (a ++ ('\n' :: (b ++ ('\n' :: c))))) 0).2 =
          a.length + b.length + c.length + 2 ∧
      (process_new_lines (String.mk ((a ++ ('\n' :: (b ++ ('\n' :: c)))) ++ ['\n']))
          (a.length + b.length + c.length + 2)).1 = [] := by
  intro a b c hna hnb hnc hsa hsb hsc
  have hlen : (a ++ ('\n' :: (b ++ ('\n' :: c)))).length = a.length + b.length + c.length + 2 := by
    simp [List.length_append]
    omega
  have hne : a ++ ('\n' :: (b ++ ('\n' :: c))) ≠ [] := by
    cases a <;> simp
  have hsplit : splitNl (a ++ ('\n' :: (b ++ ('\n' :: c)))) = [a, b, c] := by
    rw [splitNl_append_nl hna, splitNl_append_nl hnb, splitNl_no_nl hnc]
  have hemit : emittedLines (a ++ ('\n' :: (b ++ ('\n' :: c)))) =
      [stripChars a, stripChars b, stripChars c] := by
    rw [emittedLines, hsplit]
    simp only [List.map_cons, List.map_nil, List.filter]
    rw [show (!(stripChars a).isEmpty) = true by
          cases h : stripChars a with
          | nil => exact absurd h hsa
          | cons x xs => rfl,
        show (!(stripChars b).isEmpty) = true by
          cases h : stripChars b with
          | nil => exact absurd h hsb
          | cons x xs => rfl,
        show (!(stripChars c).isEmpty) = true by
          cases h : stripChars c with
          | nil => exact absurd h hsc
          | cons x xs => rfl]
  refine ⟨?_, ?_, ?_⟩
  · rw [process_from_zero _ hne, hemit]
    rfl
  · rw [process_from_zero _ hne]
    exact hlen
  · rw [← hlen]
    exact process_append_nl _

/-- Witness for `claimC2_amended_partial_line_emitted` at one-byte
chunks. -/
theorem claimC2_amended_witness :
    (process_new_lines (String.mk (['x'] ++ ('\n' :: (['y'] ++ ('\n' :: ['z']))))) 0).1 =
        [String.mk (stripChars ['x']), String.mk (stripChars ['y']), String.mk (stripChars ['z'])] ∧
    (process_new_lines (String.mk (['x'] ++ ('\n' :: (['y'] ++ ('\n' :: ['z']))))) 0).2 =
        ['x'].length + ['y'].length + ['z'].length + 2 ∧
    (process_new_lines (String.mk ((['x'] ++ ('\n' :: (['y'] ++ ('\n' :: ['z'])))) ++ ['\n']))
        (['x'].length + ['y'].length + ['z'].length + 2)).1 = [] :=
  claimC2_amended_partial_line_emitted ['x'] ['y'] ['z']
    (by decide) (by decide) (by decide) (by decide) (by decide) (by decide)

/-- **C9 (confirmed).**  When the current size is strictly smaller than
`last_position` the cycle resets the read offset to 0 — the read starts at
offset 0 and the cycle (a total function, so no error) returns the lines
of the whole file and the new end-of-file offset; concretely, a size drop
from 500 to 0 yields no lines and offset 0, not 500. -/
theorem claimC9_truncation_resets_offset :
    (∀ (content : String) (lastPos : Nat), content.data.length < lastPos →
      effectiveStart content.data.length lastPos = 0 ∧
      process_new_lines content lastPos =
        ((emittedLines content.data).map String.mk, content.data.length)) ∧
    process_new_lines (String.mk []) 500 = ([], 0) := by
  constructor
  · intro content lastPos h
    refine ⟨if_pos h, ?_⟩
    rw [process_new_lines]
    simp only [effectiveStart, if_pos h]
    by_cases hz : content.data.length = 0
    · rw [if_pos hz]
      have hd : content.data = [] := List.length_eq_zero.mp hz
      rw [hd]
      rfl
    · rw [if_neg (by omega : ¬content.data.length = 0)]
      simp only [List.drop_zero]
  · rfl

/-- Witness for `claimC9_truncation_resets_offset` at a 2-byte file and a
stale offset of 500. -/
theorem claimC9_witness :
    effectiveStart (String.mk ['h', 'i']).data.length 500 = 0 ∧
    process_new_lines (String.mk ['h', 'i']) 500 =
      ((emittedLines (String.mk ['h', 'i']).data).map String.mk,
        (String.mk ['h', 'i']).data.length) :=
  claimC9_truncation_resets_offset.1 (String.mk ['h', 'i']) 500 (by decide)

/-! ## LineParser (`LogMonitor._parse_log_line`)

The two `re` patterns of `src/log_monitor.py` (lines 44-57) are embedded
as committed-choice scanners.  For these patterns committed maximal
munch coincides with the backtracking regex semantics: every greedy
piece (`\s+`, `\w+`, `[^\]]+`, `\d{n}`, the optional `(?:\.\d{3})?`) is
followed by a requirement drawn from a disjoint character set, so a
failing continuation cannot be rescued by giving characters back — except
for the final `\s+(.+)`, where `.` does not match a newline and the
engine can give trailing whitespace back to `(.+)`; `matchWsMsg` encodes
exactly that case. -/

/-- Exactly `n` decimal digits (`\d{n}`). -/
def takeDigits : Nat → List Char → Option (List Char × List Char)
  | 0, cs => some ([], cs)
  | _ + 1, [] => none
  | n + 1, c :: cs =>
    if c.isDigit then
      match takeDigits n cs with
      | some (ds, rest) => some (c :: ds, rest)
      | none => none
    else none

/-- A single required literal character. -/
def expectChar (c : Char) : List Char → Option (List Char)
  | [] => none
  | x :: xs => if x = c then some xs else none

/-- Greedy `p+`: the maximal run satisfying `p`, at least one character. -/
def takeWhile1 (p : Char → Bool) (cs : List Char) : Option (List Char × List Char) :=
  let run := cs.takeWhile p
  if run.isEmpty then none else some (run, cs.drop run.length)

/-- Trailing `\n` characters removed (used for the `\s+(.+)` backtracking
case: `.` cannot match a newline). -/
def dropTrailingNl (w : List Char) : List Char :=
  (w.reverse.dropWhile (fun c => c = '\n')).reverse

/-- `\s+(.+)` at end of pattern: greedy whitespace, then at least one
non-newline character, greedily to the next newline or the end.  When the
whitespace run swallows everything, the engine backs off so that the last
non-newline whitespace character (if any, and if at least one whitespace
character remains before it) becomes the group. -/
def matchWsMsg (cs : List Char) : Option (List Char) :=
  let w := cs.takeWhile isSpaceChar
  let rest := cs.drop w.length
  if w.isEmpty then none
  else
    match rest with
    | [] =>
      let w2 := dropTrailingNl w
      if 2 ≤ w2.length then w2.getLast?.map (fun c => [c]) else none
    | _ :: _ => some (rest.takeWhile (fun c => c ≠ '\n'))

/-- Timestamp piece of both patterns:
`\d{4}-\d{2}-\d{2} \d{2}:\d{2}:\d{2}(?:\.\d{3})?`.  Returns the matched
token and the remaining input. -/
def matchTimestampToken (cs : List Char) : Option (List Char × List Char) := do
  let (y, r1) ← takeDigits 4 cs
  let r2 ← expectChar '-' r1
  let (mo, r3) ← takeDigits 2 r2
  let r4 ← expectChar '-' r3
  let (d, r5) ← takeDigits 2 r4
  let r6 ← expectChar ' ' r5
  let (h, r7) ← takeDigits 2 r6
  let r8 ← expectChar ':' r7
  let (mi, r9) ← takeDigits 2 r8
  let r10 ← expectChar ':' r9
  let (s, r11) ← takeDigits 2 r10
  let stem := y ++ '-' :: mo ++ '-' :: d ++ ' ' :: h ++ ':' :: mi ++ ':' :: s
  match r11 with
  | '.' :: r12 =>
    match takeDigits 3 r12 with
    | some (f, r13) => some (stem ++ '.' :: f, r13)
    | none => some (stem, r11)
  | _ => some (stem, r11)

/-- Decimal value of a digit list. -/
def digitsToNat (ds : List Char) : Nat :=
  ds.foldl (fun a c => a * 10 + (c.toNat - 48)) 0

def isLeapYear (y : Nat) : Bool :=
  (y % 4 = 0 && y % 100 != 0) || y % 400 = 0

def daysInMonth (y m : Nat) : Nat :=
  if m = 2 then (if isLeapYear y then 29 else 28)
  else if m = 4 || m = 6 || m = 9 || m = 11 then 30
  else 31

/-- `datetime` construction: `ValueError` (`none`) outside the valid
field ranges, as raised by `datetime.strptime`. -/
def mkValidTimestamp (y mo d h mi s us : Nat) : Option Timestamp :=
  if 1 ≤ y ∧ y ≤ 9999 ∧ 1 ≤ mo ∧ mo ≤ 12 ∧ 1 ≤ d ∧ d ≤ daysInMonth y mo ∧
      h ≤ 23 ∧ mi ≤ 59 ∧ s ≤ 59 then
    some ⟨y, mo, d, h, mi, s, us⟩
  else none

/-- `LogMonitor._parse_timestamp` (`src/log_monitor.py` lines 114-121):
`strptime` with `%Y-%m-%d %H:%M:%S.%f` when the string contains a dot,
`%Y-%m-%d %H:%M:%S` otherwise; a `ValueError` (shape mismatch or field
out of range) is `none`, which the caller turns into a rejected line.
`%f` accepts one to six fractional digits, scaled to microseconds. -/
def parse_timestamp (ts : String) : Option Timestamp := do
  let (y, r1) ← takeDigits 4 ts.data
  let r2 ← expectChar '-' r1
  let (mo, r3) ← takeDigits 2 r2
  let r4 ← expectChar '-' r3
  let (d, r5) ← takeDigits 2 r4
  let r6 ← expectChar ' ' r5
  let (h, r7) ← takeDigits 2 r6
  let r8 ← expectChar ':' r7
  let (mi, r9) ← takeDigits 2 r8
  let r10 ← expectChar ':' r9
  let (s, r11) ← takeDigits 2 r10
  let yN := digitsToNat y
  let moN := digitsToNat mo
  let dN := digitsToNat d
  let hN := digitsToNat h
  let miN := digitsToNat mi
  let sN := digitsToNat s
  match r11 with
  | [] => mkValidTimestamp yN moN dN hN miN sN 0
  | '.' :: r12 =>
    let f := r12.takeWhile Char.isDigit
    if f.isEmpty || 6 < f.length || f.length < r12.length then none
    else mkValidTimestamp yN moN dN hN miN sN (digitsToNat f * 10 ^ (6 - f.length))
  | _ => none

/-- `LogLevel(level_str.upper())` with the `ValueError` fallback to
`INFO` (`src/log_monitor.py` lines 132-135 and 151-154). -/
def levelFromToken (s : String) : LogLevel :=
  (LogLevel.ofValue (pyUpper s)).getD .info

/-- The full pattern `self.log_pattern`
(`timestamp, level, thread, component, message`). -/
def parseFullFormat (line : String) : Option (String × String × String × String × String) := do
  let (ts, r1) ← matchTimestampToken line.data
  let (_, r2) ← takeWhile1 isSpaceChar r1
  let (lvl, r3) ← takeWhile1 isWordChar r2
  let (_, r4) ← takeWhile1 isSpaceChar r3
  let r5 ← expectChar '(' r4
  let (thr, r6) ← takeWhile1 isWordChar r5
  let r7 ← expectChar ')' r6
  let (_, r8) ← takeWhile1 isSpaceChar r7
  let r9 ← expectChar '[' r8
  let (comp, r10) ← takeWhile1 (fun c => c ≠ ']') r9
  let r11 ← expectChar ']' r10
  let msg ← matchWsMsg r11
  return (String.mk ts, String.mk lvl, String.mk thr, String.mk comp, String.mk msg)

/-- The alternative pattern `self.simple_log_pattern`
(`timestamp, level, message`, no thread/component). -/
def parseSimpleFormat (line : String) : Option (String × String × String) := do
  let (ts, r1) ← matchTimestampToken line.data
  let (_, r2) ← takeWhile1 isSpaceChar r1
  let (lvl, r3) ← takeWhile1 isWordChar r2
  let msg ← matchWsMsg r3
  return (String.mk ts, String.mk lvl, String.mk msg)

/-- `LogMonitor._parse_log_line` (`src/log_monitor.py` lines 123-167):
try the full pattern first, then the simple pattern; a timestamp
`ValueError` inside either branch is caught by the enclosing
`try`/`except` and yields `None` without trying the other pattern; a
total function — the Python contract "never throws" is the totality of
this definition. -/
def parse_log_line (line : String) : Option LogEntry :=
  match parseFullFormat line with
  | some (ts, lvl, _thr, comp, msg) =>
    match parse_timestamp ts with
    | some t => some ⟨t, levelFromToken lvl, some comp, pyStrip msg, line⟩
    | none => none
  | none =>
    match parseSimpleFormat line with
    | some (ts, lvl, msg) =>
      match parse_timestamp ts with
      | some t => some ⟨t, levelFromToken lvl, none, pyStrip msg, line⟩
      | none => none
    | none => none

/-- **C7 (confirmed).**  The full pattern is tried first and its match is
committed: whenever the full pattern matches, the result of
`parse_log_line` is entirely determined by the full-pattern groups — the
simple pattern is never consulted — and on a valid timestamp the entry
carries the matched level token (mapped through the enum), the component
and the stripped message.  The concrete scenario line parses to level
`ERROR`, component `test.component`, message `Test error message`. -/
theorem claimC7_full_pattern_wins :
    (∀ (line ts lvl thr comp msg : String),
      parseFullFormat line = some (ts, lvl, thr, comp, msg) →
      parse_log_line line = (parse_timestamp ts).map
        (fun t => ⟨t, levelFromToken lvl, some comp, pyStrip msg, line⟩)) ∧
    parse_log_line "2024-08-20 12:00:00 ERROR (MainThread) [test.component] Test error message" =
      some ⟨⟨2024, 8, 20, 12, 0, 0, 0⟩, .error, some "test.component", "Test error message",
        "2024-08-20 12:00:00 ERROR (MainThread) [test.component] Test error message"⟩ := by
  constructor
  · intro line ts lvl thr comp msg h
    simp only [parse_log_line, h]
    cases ht : parse_timestamp ts <;> simp [ht]
  · decide

/-- Witness for `claimC7_full_pattern_wins` at the scenario line. -/
theorem claimC7_witness :
    parse_log_line "2024-08-20 12:00:00 ERROR (MainThread) [test.component] Test error message" =
      (parse_timestamp "2024-08-20 12:00:00").map
        (fun t => ⟨t, levelFromToken "ERROR", some "test.component",
          pyStrip "Test error message",
          "2024-08-20 12:00:00 ERROR (MainThread) [test.component] Test error message"⟩) :=
  claimC7_full_pattern_wins.1
    "2024-08-20 12:00:00 ERROR (MainThread) [test.component] Test error message"
    "2024-08-20 12:00:00" "ERROR" "MainThread" "test.component" "Test error message"
    (by rfl)

/-- **C8 (confirmed).**  `parse_log_line` is a total function (the Python
contract "never throws"), and it returns `none` exactly when no pattern
matches or the matched pattern's timestamp field fails to parse. -/
theorem claimC8_parse_total_null_on_failure :
    ∀ line : String,
      parse_log_line line = none ↔
        (match parseFullFormat line with
         | some (ts, _, _, _, _) => parse_timestamp ts = none
         | none =>
           match parseSimpleFormat line with
           | some (ts, _, _) => parse_timestamp ts = none
           | none => True) := by
  intro line
  unfold parse_log_line
  cases hf : parseFullFormat line with
  | some g =>
    obtain ⟨ts, lvl, thr, comp, msg⟩ := g
    cases ht : parse_timestamp ts <;> simp [ht]
  | none =>
    cases hs : parseSimpleFormat line with
    | some g =>
      obtain ⟨ts, lvl, msg⟩ := g
      cases ht : parse_timestamp ts <;> simp [ht]
    | none => simp

/-! ## ResponseInterpreter (`AIAnalyzer._parse_markdown_response`)

`_parse_markdown_response` (`src/ai_analyzer.py` lines 237-263) runs three
`re.search` calls over the model response: `^#\s+(.+)$` and `^##\s+(.+)$`
in MULTILINE mode for the title and subtitle (the subtitle, when present,
*overrides* the title as the issue summary), and
`\*\*Severity:\*\*\s*(\w+)` case-insensitively for the severity token,
accepted only when its uppercasing is one of LOW, MEDIUM, HIGH, CRITICAL.
The searches are modelled as leftmost scans over the the character list:
heading patterns at line-start positions, the severity pattern at every
position. -/

/-- Match `#...#\s+(.+)$` (with `hashCount` hash characters) at one
position, returning group 1.  `\s` may cross line boundaries; `.` may
not, and `$` after a greedy `(.+)` always succeeds. -/
def headingAt (hashCount : Nat) (cs : List Char) : Option (List Char) :=
  if cs.take hashCount = List.replicate hashCount '#' then
    matchWsMsg (cs.drop hashCount)
  else none

/-- The suffixes of `cs` that start right after a `\n` — together with
`cs` itself these are the `^` anchor positions of MULTILINE mode, in
order. -/
def tailsAfterNl : List Char → List (List Char)
  | [] => []
  | c :: cs => if c = '\n' then cs :: tailsAfterNl cs else tailsAfterNl cs

/-- `re.search` for a MULTILINE `^`-anchored heading pattern: first
anchor position where it matches. -/
def searchHeading (hashCount : Nat) (cs : List Char) : Option (List Char) :=
  (cs :: tailsAfterNl cs).findSome? (headingAt hashCount)

/-- Match `\*\*Severity:\*\*\s*(\w+)` (case-insensitively) at one
position, returning group 1: the literal label, optional whitespace, then
at least one word character, greedily. -/
def severityAt (cs : List Char) : Option (List Char) :=
  if (cs.take 13).map Char.toLower = "**severity:**".data then
    let rest := (cs.drop 13).dropWhile isSpaceChar
    let w := rest.takeWhile isWordChar
    if w.isEmpty then none else some w
  else none

/-- Every suffix of `cs`, in order of start position. -/
def allTails : List Char → List (List Char)
  | [] => [[]]
  | c :: cs => (c :: cs) :: allTails cs

/-- `re.search(r'\*\*Severity:\*\*\s*(\w+)', content, re.IGNORECASE)`:
leftmost position where the pattern matches, returning group 1. -/
def searchSeverity (cs : List Char) : Option (List Char) :=
  (allTails cs).findSome? severityAt

/-- The accepted severity values of `_parse_markdown_response`. -/
def severitySet : List String := ["LOW", "MEDIUM", "HIGH", "CRITICAL"]

/-- `AIAnalyzer._parse_markdown_response` (`src/ai_analyzer.py` lines
237-263): returns the pair `(issue_summary, severity)` of the result
dict.  The title (`^#`) search runs first and the subtitle (`^##`) search
overrides it; the severity defaults to `MEDIUM` and is replaced only by
an accepted token.  (The third dict field, the recommendation body, is
the caller's unchanged `result` string.) -/
def parse_markdown_response (content : String) : String × String :=
  let issueTitle :=
    match searchHeading 1 content.data with
    | some t => pyStrip (String.mk t)
    | none => "Unknown issue"
  let issue :=
    match searchHeading 2 content.data with
    | some t => pyStrip (String.mk t)
    | none => issueTitle
  let sev :=
    match searchSeverity content.data with
    | some w =>
      if pyUpper (String.mk w) ∈ severitySet then pyUpper (String.mk w) else "MEDIUM"
    | none => "MEDIUM"
  (issue, sev)

/-- **C4 (confirmed).**  In formatted-text mode the issue summary is the
stripped text of the first level-2 heading, falling back to the first
level-1 heading, then to `Unknown issue`; the severity is the uppercased
token following a case-insensitive `**Severity:**` label exactly when
that token is one of LOW, MEDIUM, HIGH, CRITICAL, and `MEDIUM` otherwise;
the scenario response yields `Wifi dropout` and `HIGH`. -/
theorem claimC4_heading_and_severity_extraction :
    (∀ content : String,
      (parse_markdown_response content).1 =
        match searchHeading 2 content.data with
        | some t => pyStrip (String.mk t)
        | none =>
          match searchHeading 1 content.data with
          | some t => pyStrip (String.mk t)
          | none => "Unknown issue") ∧
    (∀ content : String,
      (parse_markdown_response content).2 =
        match searchSeverity content.data with
        | some w =>
          if pyUpper (String.mk w) ∈ severitySet then pyUpper (String.mk w) else "MEDIUM"
        | none => "MEDIUM") ∧
    parse_markdown_response "# Title\n## Wifi dropout\n**Severity:** high\n..." =
      ("Wifi dropout", "HIGH") := by
  refine ⟨?_, ?_, by decide⟩
  · intro content
    simp only [parse_markdown_response]
  · intro content
    simp only [parse_markdown_response]

/-! ## C3: no structured (JSON) parse exists in the interpreter

`_parse_markdown_response` performs only the three `re.search`
extractions above; `src/ai_analyzer.py` imports `json` but never calls
it, and no structured-object parse of the response is attempted anywhere
in the interpreter path (`_analyze_single_group` stores the raw response
text as the recommendation body in both its branches). -/

/-- Modelled from the spec: the structured response shape of §4.5 — "the
whole response is parseable as an object with keys `issue_summary`,
`recommendation`, `severity`" — which `src/` does not implement.  A
minimal reader for flat JSON objects with string values and no escape
sequences; returns the three key values when all are present.  Used only
to exhibit inputs that are structured-parseable in the spec's sense. -/
def parseJsonString : List Char → Option (String × List Char)
  | '"' :: rest =>
    let s := rest.takeWhile (fun c => c != '"' && c != '\\')
    match rest.drop s.length with
    | '"' :: r => some (String.mk s, r)
    | _ => none
  | _ => none

def skipJsonWs (l : List Char) : List Char := l.dropWhile isSpaceChar

def parsePairsAux : Nat → List Char → Option (List (String × String) × List Char)
  | 0, _ => none
  | fuel + 1, l => do
    let (k, r1) ← parseJsonString (skipJsonWs l)
    let r2 ← expectChar ':' (skipJsonWs r1)
    let (v, r3) ← parseJsonString (skipJsonWs r2)
    match skipJsonWs r3 with
    | ',' :: r4 => do
      let (ps, r5) ← parsePairsAux fuel r4
      return ((k, v) :: ps, r5)
    | '\x7d' :: r4 => return ([(k, v)], r4)
    | _ => none

def specStructuredParse (s : String) : Option (String × String × String) :=
  match skipJsonWs s.data with
  | '\x7b' :: r =>
    match parsePairsAux (r.length + 1) r with
    | some (ps, rest) =>
      if skipJsonWs rest = [] then
        match ps.lookup "issue_summary", ps.lookup "recommendation", ps.lookup "severity" with
        | some a, some b, some c => some (a, b, c)
        | _, _, _ => none
      else none
    | none => none
  | _ => none

/-- A response that is a well-formed structured object with the three
expected keys. -/
def jsonResponse : String :=
  "\x7b\"issue_summary\": \"X\", \"recommendation\": \"Y\", \"severity\": \"HIGH\"\x7d"

/-- **C3 counterexample.**  A response that *is* parseable as a
structured object with keys `issue_summary`, `recommendation`,
`severity` (first conjunct) is nevertheless handled by heading/severity
extraction only: the interpreter returns issue summary `Unknown issue`
and severity `MEDIUM` instead of the structured fields `X` and `HIGH`,
and the stored body is the raw response text rather than the
`recommendation` field `Y` (`recommendation=result` in
`_analyze_single_group`, `src/ai_analyzer.py` line 156). -/
theorem claimC3_counterexample :
    specStructuredParse jsonResponse = some ("X", "Y", "HIGH") ∧
    parse_markdown_response jsonResponse = ("Unknown issue", "MEDIUM") ∧
    ("Unknown issue", "MEDIUM") ≠ ("X", "HIGH") ∧
    jsonResponse ≠ "Y" := by
  refine ⟨by decide, by decide, by decide, by decide⟩

/-- **C3 (amended).**  The interpreter never attempts a structured parse:
for every response text, including every one parseable as a structured
object with the three expected keys, `_parse_markdown_response` applies
the heading/severity extraction directly (and the caller keeps the whole
raw text as the body), so the structured fields are never used. -/
theorem claimC3_amended_always_markdown_extraction :
    ∀ (s : String) (o : String × String × String),
      specStructuredParse s = some o →
      parse_markdown_response s =
        ((match searchHeading 2 s.data with
          | some t => pyStrip (String.mk t)
          | none =>
            match searchHeading 1 s.data with
            | some t => pyStrip (String.mk t)
            | none => "Unknown issue"),
         (match searchSeverity s.data with
          | some w =>
            if pyUpper (String.mk w) ∈ severitySet then pyUpper (String.mk w) else "MEDIUM"
          | none => "MEDIUM")) := by
  intro s o _
  simp only [parse_markdown_response]

/-- Witness for `claimC3_amended_always_markdown_extraction` at the
structured `jsonResponse`. -/
theorem claimC3_amended_witness :
    parse_markdown_response jsonResponse =
      ((match searchHeading 2 jsonResponse.data with
        | some t => pyStrip (String.mk t)
        | none =>
          match searchHeading 1 jsonResponse.data with
          | some t => pyStrip (String.mk t)
          | none => "Unknown issue"),
       (match searchSeverity jsonResponse.data with
        | some w =>
          if pyUpper (String.mk w) ∈ severitySet then pyUpper (String.mk w) else "MEDIUM"
        | none => "MEDIUM")) :=
  claimC3_amended_always_markdown_extraction jsonResponse ("X", "Y", "HIGH") (by decide)

/-! ## Clusterer (`AIAnalyzer._group_similar_entries`)

`_group_similar_entries` (`src/ai_analyzer.py` lines 92-108) builds the
string key `f"{entry.level.value}:{entry.component}:{hash(message_key)}"`
where `message_key` is the message truncated to 100 characters, inserts
each entry into a dict keyed by that string (Python dicts preserve
insertion order, and `append` keeps arrival order within a key), and
returns `list(groups.values())`.  Python's builtin string `hash` is an
abstract parameter. -/

/-- `entry.message[:100] if len(entry.message) > 100 else entry.message`. -/
def pyTake100 (m : String) : String :=
  if 100 < m.data.length then pySlice 100 m else m

/-- The grouping key string of `_group_similar_entries`. -/
def groupKey (pyhash : String → Int) (e : LogEntry) : String :=
  e.level.value ++ (":" ++ (pyStrOpt e.component ++ (":" ++ toString (pyhash (pyTake100 e.message)))))

section Grouping

variable {α : Type}

/-- `groups[key].append(entry)` on an insertion-ordered association
list: append to the existing group of `k`, or add a new singleton group
at the end. -/
def insertEntry (k : String) (e : α) : List (String × List α) → List (String × List α)
  | [] => [(k, [e])]
  | (k2, g) :: rest =>
    if k2 = k then (k2, g ++ [e]) :: rest else (k2, g) :: insertEntry k e rest

/-- The dict built by the loop of `_group_similar_entries`. -/
def groupFold (key : α → String) (entries : List α) : List (String × List α) :=
  entries.foldl (fun acc e => insertEntry (key e) e acc) []

/-- The keys in first-seen order. -/
def firstKeys (key : α → String) (entries : List α) : List String :=
  entries.foldl (fun ks e => if key e ∈ ks then ks else ks ++ [key e]) []

/-- Total number of grouped entries. -/
def sumLen (A : List (String × List α)) : Nat :=
  (A.map (fun p => p.2.length)).sum

/-- All grouped entries, in group order. -/
def joinSnd (A : List (String × List α)) : List α :=
  (A.map Prod.snd).flatten

theorem insertEntry_sumLen (k : String) (e : α) (A : List (String × List α)) :
    sumLen (insertEntry k e A) = sumLen A + 1 := by
  induction A with
  | nil => simp [insertEntry, sumLen]
  | cons p rest ih =>
    obtain ⟨k2, g⟩ := p
    by_cases h : k2 = k
    · simp [insertEntry, if_pos h, sumLen]
      omega
    · simp only [insertEntry, if_neg h, sumLen, List.map_cons, List.sum_cons] at ih ⊢
      omega

theorem foldl_insert_sumLen (key : α → String) :
    ∀ (es : List α) (A : List (String × List α)),
      sumLen (es.foldl (fun acc e => insertEntry (key e) e acc) A) = sumLen A + es.length := by
  intro es
  induction es with
  | nil => intro A; simp
  | cons e rest ih =>
    intro A
    simp only [List.foldl_cons, List.length_cons]
    rw [ih, insertEntry_sumLen]
    omega

theorem insertEntry_joinSnd (k : String) (e : α) (A : List (String × List α)) :
    List.Perm (joinSnd (insertEntry k e A)) (joinSnd A ++ [e]) := by
  induction A with
  | nil => simp [insertEntry, joinSnd]
  | cons p rest ih =>
    obtain ⟨k2, g⟩ := p
    by_cases h : k2 = k
    · simp only [insertEntry, if_pos h, joinSnd, List.map_cons, List.flatten_cons]
      rw [List.append_assoc, List.append_assoc]
      exact List.Perm.append_left g List.perm_append_comm
    · simp only [insertEntry, if_neg h, joinSnd, List.map_cons, List.flatten_cons] at ih ⊢
      rw [List.append_assoc]
      exact List.Perm.append_left g ih

theorem foldl_insert_joinSnd (key : α → String) :
    ∀ (es : List α) (A : List (String × List α)),
      List.Perm (joinSnd (es.foldl (fun acc e => insertEntry (key e) e acc) A)) (joinSnd A ++ es) := by
  intro es
  induction es with
  | nil => intro A; simp
  | cons e rest ih =>
    intro A
    simp only [List.foldl_cons]
    refine (ih _).trans ?_
    refine ((insertEntry_joinSnd (key e) e A).append_right rest).trans ?_
    rw [List.append_assoc]
    exact List.Perm.refl _

/-- The dict in specification form: keys in first-seen order, each key
paired with the input entries carrying it, in input order. -/
def specAssoc (key : α → String) (es : List α) : List (String × List α) :=
  (firstKeys key es).map (fun k => (k, es.filter (fun e => key e = k)))

theorem mem_firstKeys_aux (key : α → String) :
    ∀ (es : List α) (ks : List String) (x : String),
      (x ∈ es.foldl (fun ks e => if key e ∈ ks then ks else ks ++ [key e]) ks) ↔
        x ∈ ks ∨ ∃ e ∈ es, key e = x := by
  intro es
  induction es with
  | nil => intro ks x; simp
  | cons e rest ih =>
    intro ks x
    simp only [List.foldl_cons]
    by_cases h : key e ∈ ks
    · rw [if_pos h, ih]
      constructor
      · rintro (hx | ⟨e2, he2, hk⟩)
        · exact Or.inl hx
        · exact Or.inr ⟨e2, List.mem_cons_of_mem e he2, hk⟩
      · rintro (hx | ⟨e2, he2, hk⟩)
        · exact Or.inl hx
        · rcases List.mem_cons.mp he2 with rfl | he3
          · exact Or.inl (hk ▸ h)
          · exact Or.inr ⟨e2, he3, hk⟩
    · rw [if_neg h, ih]
      constructor
      · rintro (hx | ⟨e2, he2, hk⟩)
        · rcases List.mem_append.mp hx with hx2 | hx2
          · exact Or.inl hx2
          · exact Or.inr ⟨e, List.mem_cons_self e rest, (List.mem_singleton.mp hx2).symm⟩
        · exact Or.inr ⟨e2, List.mem_cons_of_mem e he2, hk⟩
      · rintro (hx | ⟨e2, he2, hk⟩)
        · exact Or.inl (List.mem_append.mpr (Or.inl hx))
        · rcases List.mem_cons.mp he2 with rfl | he3
          · exact Or.inl (List.mem_append.mpr (Or.inr (List.mem_singleton.mpr hk.symm)))
          · exact Or.inr ⟨e2, he3, hk⟩

theorem mem_firstKeys (key : α → String) (es : List α) (x : String) :
    x ∈ firstKeys key es ↔ ∃ e ∈ es, key e = x := by
  rw [firstKeys, mem_firstKeys_aux]
  simp

theorem nodup_firstKeys_aux (key : α → String) :
    ∀ (es : List α) (ks : List String), ks.Nodup →
      (es.foldl (fun ks e => if key e ∈ ks then ks else ks ++ [key e]) ks).Nodup := by
  intro es
  induction es with
  | nil => intro ks h; simpa using h
  | cons e rest ih =>
    intro ks h
    simp only [List.foldl_cons]
    by_cases hm : key e ∈ ks
    · rw [if_pos hm]; exact ih ks h
    · rw [if_neg hm]
      refine ih _ ?_
      rw [List.nodup_append]
      refine ⟨h, List.nodup_singleton _, fun x hx hxe => ?_⟩
      rw [List.mem_singleton] at hxe
      exact hm (hxe ▸ hx)

theorem nodup_firstKeys (key : α → String) (es : List α) : (firstKeys key es).Nodup :=
  nodup_firstKeys_aux key es [] List.nodup_nil

theorem firstKeys_append_singleton (key : α → String) (es : List α) (e : α) :
    firstKeys key (es ++ [e]) =
      if key e ∈ firstKeys key es then firstKeys key es
      else firstKeys key es ++ [key e] := by
  rw [firstKeys, List.foldl_append]
  rfl

theorem insertEntry_map_of_notMem (k : String) (e : α) (F : String → List α) :
    ∀ ks : List String, k ∉ ks →
      insertEntry k e (ks.map (fun k2 => (k2, F k2))) =
        ks.map (fun k2 => (k2, F k2)) ++ [(k, [e])] := by
  intro ks
  induction ks with
  | nil => intro _; rfl
  | cons a ks ih =>
    intro h
    have ha : a ≠ k := fun hak => h (hak ▸ List.mem_cons_self a ks)
    simp only [List.map_cons, insertEntry, if_neg ha, List.cons_append]
    rw [ih (fun hk => h (List.mem_cons_of_mem a hk))]

theorem insertEntry_map_of_mem (k : String) (e : α) (F : String → List α) :
    ∀ ks : List String, ks.Nodup → k ∈ ks →
      insertEntry k e (ks.map (fun k2 => (k2, F k2))) =
        ks.map (fun k2 => (k2, if k2 = k then F k2 ++ [e] else F k2)) := by
  intro ks
  induction ks with
  | nil => intro _ h; simp at h
  | cons a ks ih =>
    intro hnd hk
    have hnd2 := List.nodup_cons.mp hnd
    by_cases ha : a = k
    · simp only [List.map_cons, insertEntry, if_pos ha]
      congr 1
      symm
      refine List.map_congr_left ?_
      intro k2 hk2
      have hne2 : k2 ≠ k := by
        intro hkk
        apply hnd2.1
        rw [ha, ← hkk]
        exact hk2
      rw [if_neg hne2]
    · have hk2 : k ∈ ks := by
        rcases List.mem_cons.mp hk with h1 | h1
        · exact absurd h1.symm ha
        · exact h1
      simp only [List.map_cons, insertEntry, if_neg ha]
      rw [ih hnd2.2 hk2]

theorem filter_singleton_key (key : α → String) (e : α) (k : String) :
    [e].filter (fun x => key x = k) = if key e = k then [e] else [] := by
  by_cases h : key e = k
  · simp [List.filter, h]
  · simp [List.filter, h]

theorem insert_specAssoc (key : α → String) (es : List α) (e : α) :
    insertEntry (key e) e (specAssoc key es) = specAssoc key (es ++ [e]) := by
  by_cases hmem : key e ∈ firstKeys key es
  · rw [specAssoc, insertEntry_map_of_mem _ _ _ _ (nodup_firstKeys key es) hmem]
    rw [specAssoc, firstKeys_append_singleton, if_pos hmem]
    refine List.map_congr_left ?_
    intro k2 hk2
    rw [List.filter_append, filter_singleton_key]
    by_cases hk : k2 = key e
    · rw [if_pos hk, if_pos hk.symm]
    · rw [if_neg hk, if_neg (fun h => hk h.symm), List.append_nil]
  · rw [specAssoc, insertEntry_map_of_notMem _ _ _ _ hmem]
    rw [specAssoc, firstKeys_append_singleton, if_neg hmem, List.map_append]
    congr 1
    · refine List.map_congr_left ?_
      intro k2 hk2
      have hk : key e ≠ k2 := fun h => hmem (h ▸ hk2)
      rw [List.filter_append, filter_singleton_key, if_neg hk, List.append_nil]
    · simp only [List.map_cons, List.map_nil]
      have hnil : es.filter (fun x => key x = key e) = [] := by
        rw [List.filter_eq_nil_iff]
        intro a ha
        simp only [decide_eq_true_eq]
        intro hka
        exact hmem ((mem_firstKeys key es (key e)).mpr ⟨a, ha, hka⟩)
      rw [List.filter_append, filter_singleton_key, if_pos rfl, hnil]
      rfl

theorem groupFold_eq_specAssoc (key : α → String) (es : List α) :
    groupFold key es = specAssoc key es := by
  induction es using List.reverseRecOn with
  | nil => rfl
  | append_singleton es e ih =>
    have hstep : groupFold key (es ++ [e]) = insertEntry (key e) e (groupFold key es) := by
      rw [groupFold, groupFold, List.foldl_append]
      rfl
    rw [hstep, ih, insert_specAssoc]

theorem foldl_keys_const (key : α → String) (kA : String) :
    ∀ (l : List α) (ks : List String), l ≠ [] → (∀ e ∈ l, key e = kA) →
      l.foldl (fun ks e => if key e ∈ ks then ks else ks ++ [key e]) ks =
        if kA ∈ ks then ks else ks ++ [kA] := by
  intro l
  induction l with
  | nil => intro ks h _; exact absurd rfl h
  | cons e rest ih =>
    intro ks _ hall
    have hke : key e = kA := hall e (List.mem_cons_self e rest)
    simp only [List.foldl_cons, hke]
    by_cases hrest : rest = []
    · subst hrest
      rfl
    · have hall2 : ∀ x ∈ rest, key x = kA := fun x hx => hall x (List.mem_cons_of_mem e hx)
      by_cases hm : kA ∈ ks
      · rw [if_pos hm, ih ks hrest hall2, if_pos hm]
      · rw [if_neg hm, ih _ hrest hall2,
          if_pos (List.mem_append.mpr (Or.inr (List.mem_singleton.mpr rfl)))]

end Grouping

/-- `list(groups.values())`: the groups of `_group_similar_entries`, in
key-insertion order. -/
def group_similar_entries (pyhash : String → Int) (entries : List LogEntry) : List (List LogEntry) :=
  (groupFold (groupKey pyhash) entries).map Prod.snd

/-- A 100-character message (exactly the grouping window). -/
def msg100 : String := String.mk (List.replicate 100 'm')

/-- A 101-character message agreeing with `msg100` on the window. -/
def msg101p : String := String.mk (List.replicate 100 'm' ++ ['p'])

/-- Another 101-character message agreeing with `msg100` on the window. -/
def msg101q : String := String.mk (List.replicate 100 'm' ++ ['q'])

def ek1 : LogEntry := ⟨ts0, .error, some "light.kitchen", msg100, "r1"⟩

def ek2 : LogEntry := ⟨ts0, .error, some "light.kitchen", msg101p, "r2"⟩

def ek3 : LogEntry := ⟨ts0, .error, some "light.kitchen", msg101q, "r3"⟩

def ek4 : LogEntry := ⟨ts0, .error, some "light.kitchen", msg100, "r4"⟩

def ek5 : LogEntry := ⟨ts0, .error, some "light.kitchen", msg100, "r5"⟩

def ek6 : LogEntry := ⟨ts0, .error, some "sensor.door", msg100, "r6"⟩

/-- Five entries sharing level, component and 100-character message
window (messages differ beyond the window). -/
def groupKitchen : List LogEntry := [ek1, ek2, ek3, ek4, ek5]

/-- The scenario input: the five similar entries plus one entry with a
different component. -/
def scenarioEntries : List LogEntry := groupKitchen ++ [ek6]

theorem scenario_key_ne (t : String) :
    ("ERROR" ++ (":" ++ ("sensor.door" ++ (":" ++ t)))) ≠
      ("ERROR" ++ (":" ++ ("light.kitchen" ++ (":" ++ t)))) := by
  intro h
  have h2 := congrArg String.data h
  simp [String.data_append] at h2

/-- **C6 (confirmed).**  `_group_similar_entries` partitions its input by
the key built from level, component and the hash of the 100-character
message window: the group sizes sum to the input length, the flattened
groups are a permutation of the input (no entry lost or duplicated), the
result is exactly the first-seen-ordered key list mapped to the
input-ordered entries of each key (so first-seen order of keys and of
entries within each key is preserved), and for five entries agreeing on
level/component/window plus one entry with a different component the
groups have sizes 5 and 1 — for every choice of the (process-seeded)
string hash. -/
theorem claimC6_grouping_partition :
    (∀ (pyhash : String → Int) (entries : List LogEntry),
      ((group_similar_entries pyhash entries).map List.length).sum = entries.length) ∧
    (∀ (pyhash : String → Int) (entries : List LogEntry),
      List.Perm (group_similar_entries pyhash entries).flatten entries) ∧
    (∀ (pyhash : String → Int) (entries : List LogEntry),
      group_similar_entries pyhash entries =
        (firstKeys (groupKey pyhash) entries).map
          (fun k => entries.filter (fun e => groupKey pyhash e = k))) ∧
    (∀ pyhash : String → Int,
      (group_similar_entries pyhash scenarioEntries).map List.length = [5, 1]) := by
  have hchar : ∀ (pyhash : String → Int) (entries : List LogEntry),
      group_similar_entries pyhash entries =
        (firstKeys (groupKey pyhash) entries).map
          (fun k => entries.filter (fun e => groupKey pyhash e = k)) := by
    intro ph es
    rw [group_similar_entries, groupFold_eq_specAssoc, specAssoc, List.map_map]
    rfl
  refine ⟨?_, ?_, hchar, ?_⟩
  · intro ph es
    have h := foldl_insert_sumLen (groupKey ph) es []
    have h2 : ((group_similar_entries ph es).map List.length).sum =
        sumLen (groupFold (groupKey ph) es) := by
      rw [group_similar_entries, List.map_map]
      rfl
    rw [h2]
    exact h.trans (by simp [sumLen])
  · intro ph es
    exact foldl_insert_joinSnd (groupKey ph) es []
  · intro ph
    have hkA : ∀ e ∈ groupKitchen, groupKey ph e = groupKey ph ek1 := by
      intro e he
      simp only [groupKitchen, List.mem_cons, List.not_mem_nil, or_false] at he
      rcases he with rfl | rfl | rfl | rfl | rfl
      · rfl
      · rfl
      · rfl
      · rfl
      · rfl
    have hkB : ∀ e ∈ [ek6], groupKey ph e = groupKey ph ek6 := by
      intro e he
      rw [List.mem_singleton] at he
      subst he
      rfl
    have hne : groupKey ph ek6 ≠ groupKey ph ek1 := fun h =>
      scenario_key_ne (toString (ph (pyTake100 msg100))) h
    have hfk : firstKeys (groupKey ph) scenarioEntries =
        [groupKey ph ek1, groupKey ph ek6] := by
      rw [show scenarioEntries = groupKitchen ++ [ek6] from rfl, firstKeys, List.foldl_append]
      rw [show List.foldl
            (fun ks e => if groupKey ph e ∈ ks then ks else ks ++ [groupKey ph e])
            [] groupKitchen = [groupKey ph ek1] from by
        have h := foldl_keys_const (groupKey ph) (groupKey ph ek1) groupKitchen []
          (by simp [groupKitchen]) hkA
        simpa using h]
      have h2 := foldl_keys_const (groupKey ph) (groupKey ph ek6) [ek6]
        [groupKey ph ek1] (by simp) hkB
      rw [h2, if_neg (by rw [List.mem_singleton]; exact hne)]
      rfl
    have hfA : scenarioEntries.filter (fun e => groupKey ph e = groupKey ph ek1) =
        groupKitchen := by
      simp only [scenarioEntries, List.filter_append]
      rw [List.filter_eq_self.mpr (fun a ha => by simpa using hkA a ha),
        filter_singleton_key, if_neg hne, List.append_nil]
    have hfB : scenarioEntries.filter (fun e => groupKey ph e = groupKey ph ek6) =
        [ek6] := by
      simp only [scenarioEntries, List.filter_append]
      rw [List.filter_eq_nil_iff.mpr, filter_singleton_key, if_pos rfl, List.nil_append]
      intro a ha
      simp only [decide_eq_true_eq]
      intro hks
      exact hne (hks.symm.trans (hkA a ha))
    rw [hchar, hfk]
    simp only [List.map_cons, List.map_nil, hfA, hfB]
    rfl

end HALog
